import Mathlib

/-!
A verification development for the event-scoring service in `app/` (state
store, admission queue, aggregation, persistence).  Python floats are
modelled as rationals, the asyncio queue as a list plus a capacity bound,
and dicts as association lists in insertion order.  Every operation is a
pure function threading the `AppState` value that the Python methods
mutate in place.
-/

namespace EightSleep

/-- An event as validated by the pydantic schema (app/schema.py): a user id,
an integer unix timestamp and a numeric feature vector. -/
structure Event where
  user_id : String
  timestamp : Int
  features : List ℚ
deriving DecidableEq

/-- The service state (app/state.py, class AppState).  `event_queue` is the
asyncio.Queue content together with its `queue_maxsize` bound;
`user_windows` is the defaultdict of per-user windows, kept in dict
insertion order; the five stats counters follow.  The lock serialises the
methods, so each method is modelled as one atomic function on this value. -/
structure AppState where
  queue_maxsize : Nat
  event_queue : List Event
  user_windows : List (String × List (Int × ℚ))
  window_seconds : Int
  ingest_requests_total : Nat
  events_received_total : Nat
  ingest_last_ts : ℚ
  inference_calls : Nat
  queue_rejections : Nat
deriving DecidableEq

/-- AppState.__init__ with its default arguments: capacity 10000, window of
300 seconds, no queued events, no windows, all counters zero. -/
def initialState : AppState :=
  { queue_maxsize := 10000
    event_queue := []
    user_windows := []
    window_seconds := 300
    ingest_requests_total := 0
    events_received_total := 0
    ingest_last_ts := 0
    inference_calls := 0
    queue_rejections := 0 }

/-- First-match lookup in an association list: `d.get(k)` on a dict modelled
in insertion order (dict keys are unique, so the first match is the match). -/
def dictGet {β : Type} : List (String × β) → String → Option β
  | [], _ => none
  | (k, v) :: rest, key => if k = key then some v else dictGet rest key

/-- In-place replacement of the value of an existing dict entry (the Python
methods mutate the looked-up list object, keeping dict insertion order).
A missing key leaves the list unchanged. -/
def dictSet {β : Type} : List (String × β) → String → β → List (String × β)
  | [], _, _ => []
  | (k, v) :: rest, key, val =>
    if k = key then (k, val) :: rest else (k, v) :: dictSet rest key val

/-- The loop of bisect.bisect_left / bisect.bisect_right:
`while lo < hi: mid = (lo+hi)//2; if cmp(a[mid]): lo = mid+1 else: hi = mid`,
generic over the comparison against the probe value (`a[mid] < x` for
bisect_left, `not (x < a[mid])` for bisect_right).  `fuel` bounds the number
of iterations: `hi - lo` strictly decreases each round, so any fuel larger
than `hi - lo` reproduces the loop's exit value `lo`. -/
def bisectLoop {α : Type} [Inhabited α] (p : α → Bool) (a : List α) :
    Nat → Nat → Nat → Nat
  | 0, lo, _ => lo
  | fuel + 1, lo, hi =>
    if lo < hi then
      let mid := (lo + hi) / 2
      if p (a.getD mid default) then bisectLoop p a fuel (mid + 1) hi
      else bisectLoop p a fuel lo mid
    else lo

/-- bisect_left / bisect_right over the whole list (lo = 0, hi = len(a)). -/
def bisect {α : Type} [Inhabited α] (p : α → Bool) (a : List α) : Nat :=
  bisectLoop p a (a.length + 1) 0 a.length

/-- A predicate that, along a given list, can only switch from true to
false: if it holds at position j it holds at every earlier position. -/
def PrefixClosed {α : Type} (p : α → Bool) (a : List α) : Prop :=
  ∀ i j (hij : i ≤ j) (hj : j < a.length),
    p (a.get ⟨j, hj⟩) = true → p (a.get ⟨i, Nat.lt_of_le_of_lt hij hj⟩) = true

theorem length_takeWhile_le {α : Type} (p : α → Bool) (a : List α) :
    (a.takeWhile p).length ≤ a.length := by
  induction a with
  | nil => simp
  | cons x xs ih =>
    by_cases h : p x <;> simp [List.takeWhile_cons, h] <;> omega

theorem get_of_lt_length_takeWhile {α : Type} (p : α → Bool) (a : List α) :
    ∀ i (hi : i < (a.takeWhile p).length) (ha : i < a.length),
      p (a.get ⟨i, ha⟩) = true := by
  induction a with
  | nil => intro i hi; simp at hi
  | cons x xs ih =>
    intro i hi ha
    by_cases h : p x
    · cases i with
      | zero => simpa using h
      | succ j =>
        simp only [List.takeWhile_cons, h, if_pos, List.length_cons] at hi
        exact ih j (by simpa using hi) (by simpa using ha)
    · simp [List.takeWhile_cons, h] at hi

theorem get_at_length_takeWhile {α : Type} (p : α → Bool) (a : List α)
    (h : (a.takeWhile p).length < a.length) :
    p (a.get ⟨(a.takeWhile p).length, h⟩) = false := by
  induction a with
  | nil => simp at h
  | cons x xs ih =>
    by_cases hx : p x
    · have hrec := ih (by
        have := h
        simpa [List.takeWhile_cons, hx] using this)
      simpa [List.takeWhile_cons, hx] using hrec
    · simpa [List.takeWhile_cons, hx] using hx

theorem bisectLoop_eq_boundary {α : Type} [Inhabited α] (p : α → Bool) (a : List α)
    (hc : PrefixClosed p a) :
    ∀ fuel lo hi, hi - lo < fuel → lo ≤ (a.takeWhile p).length →
      (a.takeWhile p).length ≤ hi → hi ≤ a.length →
      bisectLoop p a fuel lo hi = (a.takeWhile p).length := by
  intro fuel
  induction fuel with
  | zero => intro lo hi hfuel; omega
  | succ n ih =>
    intro lo hi hfuel hlo hhi hlen
    rw [bisectLoop]
    by_cases hlt : lo < hi
    · simp only [hlt, if_pos]
      have hmidlo : lo ≤ (lo + hi) / 2 := by omega
      have hmidhi : (lo + hi) / 2 < hi := by omega
      have hmida : (lo + hi) / 2 < a.length := Nat.lt_of_lt_of_le hmidhi hlen
      have hget : a.getD ((lo + hi) / 2) default = a.get ⟨(lo + hi) / 2, hmida⟩ := by
        simp [List.getD_eq_getElem?_getD, List.getElem?_eq_getElem hmida]
      rw [hget]
      by_cases hp : p (a.get ⟨(lo + hi) / 2, hmida⟩) = true
      · simp only [hp, if_pos]
        have hmidB : (lo + hi) / 2 < (a.takeWhile p).length := by
          by_contra hcon
          push_neg at hcon
          have hBlt : (a.takeWhile p).length < a.length :=
            Nat.lt_of_le_of_lt hcon hmida
          have hfalse := get_at_length_takeWhile p a hBlt
          have htrue := hc (a.takeWhile p).length ((lo + hi) / 2) hcon hmida hp
          rw [htrue] at hfalse
          simp at hfalse
        exact ih ((lo + hi) / 2 + 1) hi (by omega) (by omega) hhi hlen
      · simp only [hp, if_neg, if_false]
        have hBmid : (a.takeWhile p).length ≤ (lo + hi) / 2 := by
          by_contra hcon
          push_neg at hcon
          exact hp (get_of_lt_length_takeWhile p a ((lo + hi) / 2) hcon hmida)
        exact ih lo ((lo + hi) / 2) (by omega) hlo hBmid (by omega)
    · simp only [hlt, if_neg, if_false]
      omega

theorem bisect_eq_length_takeWhile {α : Type} [Inhabited α] (p : α → Bool)
    (a : List α) (hc : PrefixClosed p a) :
    bisect p a = (a.takeWhile p).length :=
  bisectLoop_eq_boundary p a hc (a.length + 1) 0 a.length (by omega)
    (Nat.zero_le _) (length_takeWhile_le p a) (Nat.le_refl _)

/-- A window is sorted when its timestamps are non-decreasing along it
(the UserWindow invariant: ties between equal timestamps are allowed and
keep arrival order). -/
def SortedTs (w : List (Int × ℚ)) : Prop :=
  List.Pairwise (fun x y : Int × ℚ => x.1 ≤ y.1) w

theorem sorted_prefixClosed (w : List (Int × ℚ)) (hs : SortedTs w)
    (p : Int × ℚ → Bool)
    (hm : ∀ x y : Int × ℚ, x.1 ≤ y.1 → p y = true → p x = true) :
    PrefixClosed p w := by
  intro i j hij hj hp
  rcases Nat.lt_or_ge i j with hlt | hge
  · exact hm _ _ (List.pairwise_iff_get.mp hs ⟨i, _⟩ ⟨j, hj⟩ hlt) hp
  · have : i = j := Nat.le_antisymm hij hge
    subst this
    exact hp

theorem sorted_takeWhile_eq_filter (p : Int × ℚ → Bool)
    (hm : ∀ x y : Int × ℚ, x.1 ≤ y.1 → p y = true → p x = true) :
    ∀ w : List (Int × ℚ), SortedTs w → w.takeWhile p = w.filter p := by
  intro w
  induction w with
  | nil => intro _; rfl
  | cons x xs ih =>
    intro hs
    rcases List.pairwise_cons.mp hs with ⟨hhead, htail⟩
    by_cases hx : p x
    · simp [List.takeWhile_cons, List.filter_cons, hx, ih htail]
    · have hxs : xs.filter p = [] := by
        rw [List.filter_eq_nil_iff]
        intro e he hpe
        exact hx (hm x e (hhead e he) hpe)
      simp [List.takeWhile_cons, List.filter_cons, hx, hxs]

theorem sorted_dropWhile_eq_filter (p : Int × ℚ → Bool)
    (hm : ∀ x y : Int × ℚ, x.1 ≤ y.1 → p y = true → p x = true) :
    ∀ w : List (Int × ℚ), SortedTs w →
      w.dropWhile p = w.filter (fun e => ! p e) := by
  intro w
  induction w with
  | nil => intro _; rfl
  | cons x xs ih =>
    intro hs
    rcases List.pairwise_cons.mp hs with ⟨hhead, htail⟩
    by_cases hx : p x
    · simp [List.dropWhile_cons, List.filter_cons, hx, ih htail]
    · have hxs : xs.filter (fun e => ! p e) = xs := by
        rw [List.filter_eq_self]
        intro e he
        cases hpe : p e with
        | false => simp [hpe]
        | true => exact absurd (hm x e (hhead e he) hpe) hx
      simp [List.dropWhile_cons, List.filter_cons, hx, hxs]

theorem drop_length_takeWhile {α : Type} (p : α → Bool) (a : List α) :
    a.drop (a.takeWhile p).length = a.dropWhile p := by
  conv_rhs => rw [← List.drop_left (List.takeWhile p a) (List.dropWhile p a)]
  rw [List.takeWhile_append_dropWhile]

theorem take_length_takeWhile {α : Type} (p : α → Bool) (a : List α) :
    a.take (a.takeWhile p).length = a.takeWhile p := by
  conv_rhs => rw [← List.take_left (List.takeWhile p a) (List.dropWhile p a)]
  rw [List.takeWhile_append_dropWhile]

/-- bisect_left with probe `(cutoff, -inf)` on a sorted window finds the
boundary between the strictly-older prefix and the rest: the prefix removed
by a trim is exactly the entries with timestamp < cutoff, and the suffix
kept is exactly the entries with timestamp ≥ cutoff. -/
theorem bisect_lt_take_drop (w : List (Int × ℚ)) (hs : SortedTs w) (c : Int) :
    w.take (bisect (fun e => decide (e.1 < c)) w)
        = w.filter (fun e => decide (e.1 < c)) ∧
      w.drop (bisect (fun e => decide (e.1 < c)) w)
        = w.filter (fun e => decide (c ≤ e.1)) := by
  have hm : ∀ x y : Int × ℚ, x.1 ≤ y.1 →
      decide (y.1 < c) = true → decide (x.1 < c) = true := by
    intro x y hxy hy
    simp only [decide_eq_true_eq] at hy ⊢
    omega
  have hb := bisect_eq_length_takeWhile (fun e => decide (e.1 < c)) w
    (sorted_prefixClosed w hs _ hm)
  constructor
  · rw [hb, take_length_takeWhile, sorted_takeWhile_eq_filter _ hm w hs]
  · rw [hb, drop_length_takeWhile, sorted_dropWhile_eq_filter _ hm w hs]
    apply List.filter_congr
    intro e _
    by_cases hcase : e.1 < c <;> simp [hcase] <;> omega

/-- bisect_right with probe `(t, +inf)` on a sorted window: the prefix is
exactly the entries with timestamp ≤ t (every stored score is a finite
float, hence below +inf), the suffix exactly those with timestamp > t. -/
theorem bisect_le_take_drop (w : List (Int × ℚ)) (hs : SortedTs w) (t : Int) :
    w.take (bisect (fun e => decide (e.1 ≤ t)) w)
        = w.filter (fun e => decide (e.1 ≤ t)) ∧
      w.drop (bisect (fun e => decide (e.1 ≤ t)) w)
        = w.filter (fun e => decide (t < e.1)) := by
  have hm : ∀ x y : Int × ℚ, x.1 ≤ y.1 →
      decide (y.1 ≤ t) = true → decide (x.1 ≤ t) = true := by
    intro x y hxy hy
    simp only [decide_eq_true_eq] at hy ⊢
    omega
  have hb := bisect_eq_length_takeWhile (fun e => decide (e.1 ≤ t)) w
    (sorted_prefixClosed w hs _ hm)
  constructor
  · rw [hb, take_length_takeWhile, sorted_takeWhile_eq_filter _ hm w hs]
  · rw [hb, drop_length_takeWhile, sorted_dropWhile_eq_filter _ hm w hs]
    apply List.filter_congr
    intro e _
    by_cases hcase : e.1 ≤ t <;> simp [hcase] <;> omega

/-- AppState.trim_user_window: look the user up (plain .get, no defaultdict
entry is created), return [] for a missing or empty window, otherwise drop
the prefix found by `bisect_left(window, (cutoff, float("-inf")))` — an
entry (ts, s) with a finite score compares below the probe exactly when
ts < cutoff — and return a copy of the survivors.  The `if idx > 0` guard
only skips a no-op deletion, so it is folded into the unconditional drop.
Returns the trimmed copy together with the updated store. -/
def trim_user_window (st : AppState) (user_id : String) (cutoff : Int) :
    List (Int × ℚ) × AppState :=
  match dictGet st.user_windows user_id with
  | none => ([], st)
  | some window =>
    if window = [] then ([], st)
    else
      let idx := bisect (fun e => decide (e.1 < cutoff)) window
      let window2 := window.drop idx
      (window2, { st with user_windows := dictSet st.user_windows user_id window2 })

/-- AppState.insert_user_window: `self.user_windows[user_id]` on the
defaultdict yields the existing window or creates an empty one (a fresh key
goes to the end of dict order); `bisect_right(window, (timestamp, inf))`
finds the index just past every entry with timestamp ≤ the new one (every
stored score is a finite float, hence below the +inf probe), and
`window.insert(idx, (timestamp, score))` places the new pair there. -/
def insert_user_window (st : AppState) (user_id : String) (timestamp : Int)
    (score : ℚ) : AppState :=
  let window := (dictGet st.user_windows user_id).getD []
  let idx := bisect (fun e => decide (e.1 ≤ timestamp)) window
  let window2 := window.take idx ++ (timestamp, score) :: window.drop idx
  match dictGet st.user_windows user_id with
  | some _ => { st with user_windows := dictSet st.user_windows user_id window2 }
  | none => { st with user_windows := st.user_windows ++ [(user_id, window2)] }

/-- statistics.median: sort the data; an odd count yields the middle value,
an even count the arithmetic mean of the two middle values.  The source
only applies it to nonempty lists; the value on [] is fixed to 0 here. -/
def pyMedian (l : List ℚ) : ℚ :=
  let s := l.mergeSort (fun a b => decide (a ≤ b))
  let n := s.length
  if n % 2 = 1 then s.getD (n / 2) 0
  else (s.getD (n / 2 - 1) 0 + s.getD (n / 2) 0) / 2

/-- The loop body of median_of_medians on one copied window:
`bisect_left(window, (cutoff, float("-inf")))`, `continue` when the index
falls past the end (no entry survives), otherwise the median of the scores
from that index on. -/
def mom_body (cutoff : Int) (window : List (Int × ℚ)) : Option ℚ :=
  let idx := bisect (fun e => decide (e.1 < cutoff)) window
  if window.length ≤ idx then none
  else some (pyMedian ((window.drop idx).map (fun e => e.2)))

/-- AppState.median_of_medians with an explicit reference timestamp (the
None default merely substitutes the current wall clock).  One cutoff is
fixed up front; under the lock every nonempty window is copied into a
snapshot; the loop collects each window's contribution (mom_body); an
empty contribution list yields None.  The method never writes to the
store, so the state comes back unchanged. -/
def median_of_medians (st : AppState) (reference_ts : Int) :
    Option ℚ × AppState :=
  let cutoff := reference_ts - st.window_seconds
  let windows_snapshot :=
    (st.user_windows.filter (fun uw => decide (uw.2 ≠ []))).map (fun uw => uw.2)
  let medians := windows_snapshot.filterMap (mom_body cutoff)
  (if medians = [] then none else some (pyMedian medians), st)

/-- AppState.record_ingest: one more ingest request, batch_size more events,
and the wall clock (passed explicitly here) stamped as the last ingest. -/
def record_ingest (st : AppState) (batch_size : Nat) (now : ℚ) : AppState :=
  { st with
    ingest_requests_total := st.ingest_requests_total + 1
    events_received_total := st.events_received_total + batch_size
    ingest_last_ts := now }

/-- The response body of a successful POST /ingest. -/
structure IngestResp where
  status : String
  accepted : Nat
  batch_size : Nat
deriving DecidableEq

/-- The event loop of the ingest endpoint (app/api.py): each event of the
batch is offered to the queue with a 50 ms timeout.  With no consumer
draining concurrently, the put succeeds exactly when a slot is free at call
time and times out otherwise; a timeout bumps queue_rejections and raises
HTTPException(503) on the spot, abandoning the rest of the batch without
reaching record_ingest. -/
def ingestLoop (st : AppState) (events : List Event) (accepted : Nat)
    (batch_size : Nat) (now : ℚ) :
    Except (Nat × String) IngestResp × AppState :=
  match events with
  | [] =>
    (Except.ok { status := "ok", accepted := accepted, batch_size := batch_size },
      record_ingest st accepted now)
  | e :: rest =>
    if st.event_queue.length < st.queue_maxsize then
      ingestLoop { st with event_queue := st.event_queue ++ [e] } rest
        (accepted + 1) batch_size now
    else
      (Except.error (503, "Queue full"),
        { st with queue_rejections := st.queue_rejections + 1 })

/-- POST /ingest on a whole batch. -/
def ingest (st : AppState) (batch : List Event) (now : ℚ) :
    Except (Nat × String) IngestResp × AppState :=
  ingestLoop st batch 0 batch.length now

/-- GET /users/user_id/median (app/api.py): trim the user's window at
`now - window_seconds` and read the trimmed copy; an empty copy yields
HTTPException(404, "No data for ...") — the NoData outcome — otherwise the
median of the surviving scores. -/
def get_user_median (st : AppState) (user_id : String) (now : Int) :
    Except (Nat × String) (String × ℚ) × AppState :=
  let cutoff := now - st.window_seconds
  let res := trim_user_window st user_id cutoff
  if res.1 = [] then
    (Except.error (404, "No data for " ++ user_id), res.2)
  else
    (Except.ok (user_id, pyMedian (res.1.map (fun e => e.2))), res.2)

/-- One turn of the inference worker loop (app/workers.py) on a dequeued
event, with the scorer abstracted as a fallible capability: run the model,
bump inference_calls, insert the scored point, then trim that user at
`event.timestamp - window_seconds`.  The loop body has no try/except, so a
scorer failure propagates straight out (modelled as the error branch). -/
def inference_worker_step (st : AppState) (event : Event)
    (scorer : List ℚ → Except String ℚ) : Except String AppState :=
  match scorer event.features with
  | Except.error msg => Except.error msg
  | Except.ok score =>
    let st1 := { st with inference_calls := st.inference_calls + 1 }
    let st2 := insert_user_window st1 event.user_id event.timestamp score
    Except.ok (trim_user_window st2 event.user_id
      (event.timestamp - st2.window_seconds)).2

/-- JSON values, the image of json.load / json.dump (numbers collapse
Python ints and floats into one numeric kind, as rationals). -/
inductive JValue : Type where
  | jnull : JValue
  | jbool : Bool → JValue
  | jnum : ℚ → JValue
  | jstr : String → JValue
  | jarr : List JValue → JValue
  | jobj : List (String × JValue) → JValue

/-- The data dict that AppState.save_to_file serialises under the lock:
window_seconds, a copy of every user window (empty ones included) in dict
order, and the five counters. -/
def save_data (st : AppState) : JValue :=
  JValue.jobj
    [ ("window_seconds", JValue.jnum st.window_seconds),
      ("user_windows", JValue.jobj (st.user_windows.map (fun uw =>
        (uw.1, JValue.jarr (uw.2.map (fun e =>
          JValue.jarr [JValue.jnum e.1, JValue.jnum e.2])))))),
      ("ingest_requests_total", JValue.jnum st.ingest_requests_total),
      ("events_received_total", JValue.jnum st.events_received_total),
      ("ingest_last_ts", JValue.jnum st.ingest_last_ts),
      ("inference_calls", JValue.jnum st.inference_calls),
      ("queue_rejections", JValue.jnum st.queue_rejections) ]

/-- AppState.save_to_file: build the data dict under the lock, then write it
out via temp file and atomic replace.  The file write is outside the store;
the function returns the serialised snapshot and the untouched state. -/
def save_to_file (st : AppState) : JValue × AppState :=
  (save_data st, st)

/-- Python `int(x)` applied to a loaded window timestamp: truncation toward zero
for a JSON number.  (Python's int() also parses numeric strings; a saved
snapshot never contains one, so that corner stays outside the model, as do
the shapes on which int() raises TypeError.) -/
def pyInt : JValue → Except String Int
  | JValue.jnum q => Except.ok (q.num.tdiv q.den)
  | _ => Except.error "TypeError: int() argument"

/-- Python `float(x)` applied to a loaded score. -/
def pyFloat : JValue → Except String ℚ
  | JValue.jnum q => Except.ok q
  | _ => Except.error "TypeError: float() argument"

/-- Unpacking `for ts, score in window` with `(int(ts), float(score))`: the element
must unpack as a pair; any other shape raises in Python (TypeError /
ValueError) and is the error branch here. -/
def decodeEntry : JValue → Except String (Int × ℚ)
  | JValue.jarr [a, b] => do
    let t ← pyInt a
    let s ← pyFloat b
    Except.ok (t, s)
  | _ => Except.error "ValueError: cannot unpack window entry"

/-- A persisted user window: a JSON array of entries (anything else makes
the comprehension raise). -/
def decodeWindow : JValue → Except String (List (Int × ℚ))
  | JValue.jarr l => l.mapM decodeEntry
  | _ => Except.error "TypeError: window is not iterable of pairs"

/-- Reading `data.get("user_windows", ...).items()`: the value must be an object
(anything else has no .items and raises AttributeError). -/
def decodeUserWindows : JValue → Except String (List (String × List (Int × ℚ)))
  | JValue.jobj kvs => kvs.mapM (fun kv => do
    let w ← decodeWindow kv.2
    Except.ok (kv.1, w))
  | _ => Except.error "AttributeError: no attribute items"

/-- Assignment of a loaded counter into a field that is a Python int in
every reachable state (the counters start at 0 and are only incremented).
A snapshot written by save_to_file carries exactly such numbers; any other
JSON shape would be stored dynamically typed by Python and sits outside
this typed model. -/
def pyCounter : JValue → Except String Nat
  | JValue.jnum q =>
    if q.den = 1 ∧ 0 ≤ q.num then Except.ok q.num.toNat
    else Except.error "counter outside model"
  | _ => Except.error "counter outside model"

/-- Assignment of a loaded window_seconds (an integer in every state the
service writes; other shapes sit outside the typed model, see pyCounter). -/
def pyIntField : JValue → Except String Int
  | JValue.jnum q =>
    if q.den = 1 then Except.ok q.num
    else Except.error "integer field outside model"
  | _ => Except.error "integer field outside model"

/-- Assignment of the loaded ingest_last_ts (a float). -/
def pyRatField : JValue → Except String ℚ
  | JValue.jnum q => Except.ok q
  | _ => Except.error "float field outside model"

/-- Reading `data.get(key, default-from-current-state)` followed by a field
assignment through the given decoder. -/
def fieldD {β : Type} (kvs : List (String × JValue)) (key : String)
    (dec : JValue → Except String β) (dflt : β) : Except String β :=
  match dictGet kvs key with
  | none => Except.ok dflt
  | some v => dec v

/-- The body of AppState.load_from_file after json.load succeeded: `data`
must be a dict — on any other JSON value the very first `data.get` raises
AttributeError, which propagates out of the method because the try/except
wraps only json.load.  Each field falls back to its current value when its
key is absent, except user_windows, whose `data.get(..., \x7b\x7d)` default
rebuilds an empty dict. -/
def load_from_data (st : AppState) (data : JValue) : Except String AppState :=
  match data with
  | JValue.jobj kvs => do
    let ws ← fieldD kvs "window_seconds" pyIntField st.window_seconds
    let uw ← (match dictGet kvs "user_windows" with
      | none => Except.ok ([] : List (String × List (Int × ℚ)))
      | some v => decodeUserWindows v)
    let irt ← fieldD kvs "ingest_requests_total" pyCounter st.ingest_requests_total
    let ert ← fieldD kvs "events_received_total" pyCounter st.events_received_total
    let ilt ← fieldD kvs "ingest_last_ts" pyRatField st.ingest_last_ts
    let ic ← fieldD kvs "inference_calls" pyCounter st.inference_calls
    let qr ← fieldD kvs "queue_rejections" pyCounter st.queue_rejections
    Except.ok { st with
      window_seconds := ws
      user_windows := uw
      ingest_requests_total := irt
      events_received_total := ert
      ingest_last_ts := ilt
      inference_calls := ic
      queue_rejections := qr }
  | _ => Except.error "AttributeError: no attribute get"

/-- AppState.load_from_file.  The file argument distinguishes the three
cases the method sees: `none` — no file (early return); `some none` — the
file exists but json.load raises (caught, method returns with the store
untouched); `some (some v)` — the file parses to the JSON value v, which is
handed to the body, whose exceptions are not caught. -/
def load_from_file (st : AppState) (file : Option (Option JValue)) :
    Except String AppState :=
  match file with
  | none => Except.ok st
  | some none => Except.ok st
  | some (some v) => load_from_data st v

/-- Spec-side definition (§4.4, written from the spec's words, to be
compared with median_of_medians): the entries of one window with
timestamp ≥ the cutoff are kept, and the window contributes the median of
their scores only when at least one such entry exists. -/
def specContribution (cutoff : Int) (w : List (Int × ℚ)) : Option ℚ :=
  let q := w.filter (fun e => decide (cutoff ≤ e.1))
  if q = [] then none else some (pyMedian (q.map (fun e => e.2)))

/-- Spec-side definition: every user's contribution at
cutoff = reference_ts − window_seconds, in store order. -/
def specUserContributions (st : AppState) (reference_ts : Int) : List ℚ :=
  st.user_windows.filterMap (fun uw =>
    specContribution (reference_ts - st.window_seconds) uw.2)

/-- Spec-side definition of the direct median-of-medians computation: the
median over the per-user medians, no-data (none) exactly when no user
qualifies. -/
def specMedianOfMedians (st : AppState) (reference_ts : Int) : Option ℚ :=
  let ms := specUserContributions st reference_ts
  if ms = [] then none else some (pyMedian ms)

/-- A sequence of single-event POST /ingest calls with no worker draining
the queue in between (§4.1 submit): for each event in turn, the outcome of
its own one-element batch (true = accepted, false = rejected with 503),
threading the state. -/
def submit_results (st : AppState) (events : List Event) (now : ℚ) :
    List Bool × AppState :=
  match events with
  | [] => ([], st)
  | e :: rest =>
    let r := ingest st [e] now
    let next := submit_results r.2 rest now
    ((match r.1 with
      | Except.ok _ => true
      | Except.error _ => false) :: next.1, next.2)

theorem dictGet_dictSet_self {β : Type} (m : List (String × β)) (key : String)
    (val : β) (v : β) (h : dictGet m key = some v) :
    dictGet (dictSet m key val) key = some val := by
  induction m with
  | nil => simp [dictGet] at h
  | cons kv rest ih =>
    rcases kv with ⟨k, v0⟩
    by_cases hk : k = key
    · simp [dictGet, dictSet, hk]
    · simp only [dictGet, dictSet, hk, if_neg, if_false] at h ⊢
      exact ih h

theorem dictSet_same {β : Type} (m : List (String × β)) (key : String) (v : β)
    (h : dictGet m key = some v) : dictSet m key v = m := by
  induction m with
  | nil => rfl
  | cons kv rest ih =>
    rcases kv with ⟨k, v0⟩
    by_cases hk : k = key
    · simp only [dictGet, hk, if_pos] at h
      have hv : v0 = v := Option.some.inj h
      simp [dictSet, hk, hv]
    · simp only [dictGet, hk, if_neg, if_false] at h
      simp [dictSet, hk, ih h]

instance (w : List (Int × ℚ)) : Decidable (SortedTs w) := by
  unfold SortedTs
  infer_instance

/-- A small concrete store for instantiating hypotheses: one user with the
three in-order points of the spec §8 scenario. -/
def demoState : AppState :=
  { initialState with user_windows := [("u1", [(100, 1), (200, 2), (300, 3)])] }

/-- C2: for every user window sorted non-decreasing by timestamp and every
cutoff, after trim_user_window every remaining entry has timestamp ≥ cutoff,
the original window splits into the removed entries (all with
timestamp < cutoff) followed by the returned ones, and a second trim with
the same cutoff removes nothing and returns the same contents. -/
theorem C2_trim_correctness (st : AppState) (u : String) (cutoff : Int)
    (hs : SortedTs ((dictGet st.user_windows u).getD [])) :
    (∀ e ∈ (trim_user_window st u cutoff).1, cutoff ≤ e.1) ∧
    ((dictGet st.user_windows u).getD [] =
      ((dictGet st.user_windows u).getD []).filter (fun e => decide (e.1 < cutoff))
        ++ (trim_user_window st u cutoff).1) ∧
    (∀ e ∈ ((dictGet st.user_windows u).getD []).filter
        (fun e => decide (e.1 < cutoff)), e.1 < cutoff) ∧
    trim_user_window (trim_user_window st u cutoff).2 u cutoff =
      ((trim_user_window st u cutoff).1, (trim_user_window st u cutoff).2) := by
  rcases hget : dictGet st.user_windows u with _ | w0
  · refine ⟨?_, ?_, ?_, ?_⟩
    · intro e he
      simp [trim_user_window, hget] at he
    · simp [trim_user_window, hget]
    · intro e he
      simp [hget] at he
    · simp [trim_user_window, hget]
  · by_cases hw0 : w0 = []
    · subst hw0
      refine ⟨?_, ?_, ?_, ?_⟩
      · intro e he
        simp [trim_user_window, hget] at he
      · simp [hget, trim_user_window]
      · intro e he
        simp [hget] at he
      · simp [trim_user_window, hget]
    · have hs0 : SortedTs w0 := by
        rw [hget] at hs
        simpa using hs
      obtain ⟨htake, hdrop⟩ := bisect_lt_take_drop w0 hs0 cutoff
      have htr : trim_user_window st u cutoff =
          (w0.filter (fun e => decide (cutoff ≤ e.1)),
            { st with user_windows :=
                (dictSet st.user_windows u
                  (w0.filter (fun e => decide (cutoff ≤ e.1)))) }) := by
        simp only [trim_user_window]
        rw [hget]
        simp only [if_neg hw0]
        rw [hdrop]
      rw [htr]
      simp only [Option.getD_some]
      refine ⟨?_, ?_, ?_, ?_⟩
      · intro e he
        have := List.of_mem_filter he
        simpa using this
      · conv_lhs =>
          rw [← List.take_append_drop
            (bisect (fun e => decide (e.1 < cutoff)) w0) w0]
        rw [htake, hdrop]
      · intro e he
        have := List.of_mem_filter he
        simpa using this
      · have hget2 : dictGet (dictSet st.user_windows u
            (w0.filter (fun e => decide (cutoff ≤ e.1)))) u =
            some (w0.filter (fun e => decide (cutoff ≤ e.1))) :=
          dictGet_dictSet_self _ _ _ _ hget
        by_cases hw2e : w0.filter (fun e => decide (cutoff ≤ e.1)) = []
        · rw [hw2e] at hget2 ⊢
          simp [trim_user_window, hget2]
        · have hs2 : SortedTs (w0.filter (fun e => decide (cutoff ≤ e.1))) :=
            List.Pairwise.filter _ hs0
          obtain ⟨htake2, hdrop2⟩ :=
            bisect_lt_take_drop (w0.filter (fun e => decide (cutoff ≤ e.1)))
              hs2 cutoff
          have hfe : (w0.filter (fun e => decide (cutoff ≤ e.1))).filter
              (fun e => decide (cutoff ≤ e.1)) =
              w0.filter (fun e => decide (cutoff ≤ e.1)) := by
            rw [List.filter_eq_self]
            intro e he
            exact (List.mem_filter.mp he).2
          have hsame : dictSet (dictSet st.user_windows u
              (w0.filter (fun e => decide (cutoff ≤ e.1)))) u
              (w0.filter (fun e => decide (cutoff ≤ e.1))) =
              dictSet st.user_windows u
                (w0.filter (fun e => decide (cutoff ≤ e.1))) :=
            dictSet_same _ _ _ hget2
          simp only [trim_user_window]
          rw [hget2]
          simp only [if_neg hw2e]
          rw [hdrop2, hfe, hsame]

/-- Witness for C2 at the spec §8 scenario: points at timestamps
100, 200, 300 and cutoff 200 keep exactly the last two. -/
theorem C2_trim_correctness_witness :
    SortedTs ((dictGet demoState.user_windows "u1").getD []) ∧
    ((∀ e ∈ (trim_user_window demoState "u1" 200).1, (200 : Int) ≤ e.1) ∧
    ((dictGet demoState.user_windows "u1").getD [] =
      ((dictGet demoState.user_windows "u1").getD []).filter
          (fun e => decide (e.1 < 200))
        ++ (trim_user_window demoState "u1" 200).1) ∧
    (∀ e ∈ ((dictGet demoState.user_windows "u1").getD []).filter
        (fun e => decide (e.1 < 200)), e.1 < 200) ∧
    trim_user_window (trim_user_window demoState "u1" 200).2 "u1" 200 =
      ((trim_user_window demoState "u1" 200).1,
        (trim_user_window demoState "u1" 200).2)) :=
  ⟨by decide, C2_trim_correctness demoState "u1" 200 (by decide)⟩

theorem dictGet_append_missing {β : Type} (m : List (String × β))
    (key : String) (x : β) (h : dictGet m key = none) :
    dictGet (m ++ [(key, x)]) key = some x := by
  induction m with
  | nil => simp [dictGet]
  | cons kv rest ih =>
    rcases kv with ⟨k, v0⟩
    by_cases hk : k = key
    · simp [dictGet, hk] at h
    · simp only [dictGet, hk, if_neg, if_false] at h
      simp [dictGet, hk, ih h]

/-- C3: insert_user_window places the new point after every existing entry
with the same or smaller timestamp and before every strictly larger one
(insertion-stable ordering by arrival), and a window that was
non-decreasing by timestamp is non-decreasing again after the insert
completes — so any sequence of inserts keeps the stored window ordered. -/
theorem C3_insert_ordering (st : AppState) (u : String) (t : Int) (s : ℚ)
    (hs : SortedTs ((dictGet st.user_windows u).getD [])) :
    dictGet (insert_user_window st u t s).user_windows u =
      some (((dictGet st.user_windows u).getD []).filter
          (fun e => decide (e.1 ≤ t))
        ++ (t, s) :: ((dictGet st.user_windows u).getD []).filter
          (fun e => decide (t < e.1))) ∧
    SortedTs (((dictGet st.user_windows u).getD []).filter
        (fun e => decide (e.1 ≤ t))
      ++ (t, s) :: ((dictGet st.user_windows u).getD []).filter
        (fun e => decide (t < e.1))) := by
  obtain ⟨htake, hdrop⟩ :=
    bisect_le_take_drop ((dictGet st.user_windows u).getD []) hs t
  constructor
  · rcases hget : dictGet st.user_windows u with _ | w0
    · rw [hget] at htake hdrop
      simp only [Option.getD_none] at htake hdrop
      simp only [insert_user_window]
      rw [hget]
      simp only [Option.getD_none]
      rw [htake, hdrop]
      have hnew : dictGet (st.user_windows ++
          [(u, List.filter (fun e => decide (e.1 ≤ t)) []
            ++ (t, s) :: List.filter (fun e => decide (t < e.1)) [])]) u =
          some (List.filter (fun e => decide (e.1 ≤ t)) []
            ++ (t, s) :: List.filter (fun e => decide (t < e.1)) []) :=
        dictGet_append_missing _ _ _ hget
      simpa using hnew
    · rw [hget] at htake hdrop
      simp only [Option.getD_some] at htake hdrop ⊢
      simp only [insert_user_window]
      rw [hget]
      simp only [Option.getD_some]
      rw [htake, hdrop]
      exact dictGet_dictSet_self _ _ _ _ hget
  · unfold SortedTs
    rw [List.pairwise_append]
    refine ⟨List.Pairwise.filter _ hs, ?_, ?_⟩
    · rw [List.pairwise_cons]
      constructor
      · intro b hb
        have hbt : t < b.1 := by simpa using (List.mem_filter.mp hb).2
        exact le_of_lt hbt
      · exact List.Pairwise.filter _ hs
    · intro a ha b hb
      have hat : a.1 ≤ t := by simpa using (List.mem_filter.mp ha).2
      rcases List.mem_cons.mp hb with hb1 | hb2
      · rw [hb1]
        exact hat
      · have hbt : t < b.1 := by simpa using (List.mem_filter.mp hb2).2
        exact le_of_lt (lt_of_le_of_lt hat hbt)

/-- Witness for C3: inserting (200, 5/2) into the demo window keeps the
window sorted and lands after the existing 200-stamped entry. -/
theorem C3_insert_ordering_witness :
    SortedTs ((dictGet demoState.user_windows "u1").getD []) ∧
    (dictGet (insert_user_window demoState "u1" 200 (5/2)).user_windows "u1" =
      some (((dictGet demoState.user_windows "u1").getD []).filter
          (fun e => decide (e.1 ≤ 200))
        ++ (200, 5/2) :: ((dictGet demoState.user_windows "u1").getD []).filter
          (fun e => decide (200 < e.1))) ∧
    SortedTs (((dictGet demoState.user_windows "u1").getD []).filter
        (fun e => decide (e.1 ≤ 200))
      ++ (200, 5/2) :: ((dictGet demoState.user_windows "u1").getD []).filter
        (fun e => decide (200 < e.1)))) :=
  ⟨by decide, C3_insert_ordering demoState "u1" 200 (5/2) (by decide)⟩

theorem window_contribution (w : List (Int × ℚ)) (hs : SortedTs w) (c : Int) :
    mom_body c w = specContribution c w := by
  obtain ⟨htake, hdrop⟩ := bisect_lt_take_drop w hs c
  unfold mom_body specContribution
  by_cases hc : w.length ≤ bisect (fun e => decide (e.1 < c)) w
  · have hnil : w.filter (fun e => decide (c ≤ e.1)) = [] := by
      rw [← hdrop]
      exact List.drop_eq_nil_iff.mpr hc
    simp [hc, hnil]
  · have hne : w.filter (fun e => decide (c ≤ e.1)) ≠ [] := by
      rw [← hdrop]
      intro hh
      exact hc (List.drop_eq_nil_iff.mp hh)
    simp [hc, hne, hdrop]

theorem medians_lists_eq (uws : List (String × List (Int × ℚ))) (c : Int)
    (hs : ∀ p ∈ uws, SortedTs p.2) :
    ((uws.filter (fun uw => decide (uw.2 ≠ []))).map
        (fun uw => uw.2)).filterMap (mom_body c)
      = uws.filterMap (fun uw => specContribution c uw.2) := by
  induction uws with
  | nil => rfl
  | cons p rest ih =>
    have hp : SortedTs p.2 := hs p (by simp)
    have hrest : ∀ q ∈ rest, SortedTs q.2 := fun q hq => hs q (by simp [hq])
    by_cases hw : p.2 = []
    · have hnil : specContribution c p.2 = none := by
        unfold specContribution
        rw [hw]
        rfl
      have hfil : List.filter (fun uw : String × List (Int × ℚ) =>
          decide (uw.2 ≠ [])) (p :: rest) =
          List.filter (fun uw => decide (uw.2 ≠ [])) rest := by
        simp [hw]
      rw [hfil]
      simp only [List.filterMap_cons, hnil]
      exact ih hrest
    · have hfil : List.filter (fun uw : String × List (Int × ℚ) =>
          decide (uw.2 ≠ [])) (p :: rest) =
          p :: List.filter (fun uw => decide (uw.2 ≠ [])) rest := by
        simp [hw]
      rw [hfil, List.map_cons]
      simp only [List.filterMap_cons]
      rw [window_contribution p.2 hp c, ih hrest]

/-- C1: with no concurrent writes (one atomic call on the store value) and
sorted windows — the invariant every reachable store satisfies —
median_of_medians(ts) equals the direct computation written from the spec:
the median over per-user medians of the entries with
timestamp ≥ ts − window_seconds, a user contributing only when at least one
such entry exists; and it returns None exactly when no user qualifies. -/
theorem C1_aggregate_consistency (st : AppState) (reference_ts : Int)
    (hs : ∀ p ∈ st.user_windows, SortedTs p.2) :
    (median_of_medians st reference_ts).1 =
      specMedianOfMedians st reference_ts ∧
    ((median_of_medians st reference_ts).1 = none ↔
      specUserContributions st reference_ts = []) := by
  have key := medians_lists_eq st.user_windows (reference_ts - st.window_seconds) hs
  constructor
  · simp only [median_of_medians, specMedianOfMedians, specUserContributions]
    rw [key]
  · simp only [median_of_medians, specUserContributions]
    rw [key]
    by_cases h : st.user_windows.filterMap (fun uw =>
        specContribution (reference_ts - st.window_seconds) uw.2) = []
    · simp [h]
    · simp [h]

/-- The spec §8 scenario store: the demo points with window_seconds 150. -/
def demo150 : AppState :=
  { demoState with window_seconds := 150 }

/-- Witness for C1 at the spec §8 scenario (reference_ts 350, cutoff 200):
the aggregate agrees with the direct computation. -/
theorem C1_aggregate_consistency_witness :
    (∀ p ∈ demo150.user_windows, SortedTs p.2) ∧
    ((median_of_medians demo150 350).1 = specMedianOfMedians demo150 350 ∧
    ((median_of_medians demo150 350).1 = none ↔
      specUserContributions demo150 350 = [])) :=
  ⟨by decide, C1_aggregate_consistency demo150 350 (by decide)⟩

/-- C10: the Aggregator and the Persistence Manager are read-only over the
Windowed Store: median_of_medians computes from the snapshot copied under
the lock and save_to_file serialises the copied data dict, and both hand
the store back with every user window, window_seconds and every counter
unchanged. -/
theorem C10_read_only_aggregation_and_persistence (st : AppState)
    (reference_ts : Int) :
    (median_of_medians st reference_ts).2 = st ∧ (save_to_file st).2 = st :=
  ⟨rfl, rfl⟩

theorem trim_fst_eq_filter (st : AppState) (u : String) (cutoff : Int)
    (hs : SortedTs ((dictGet st.user_windows u).getD [])) :
    (trim_user_window st u cutoff).1 =
      ((dictGet st.user_windows u).getD []).filter
        (fun e => decide (cutoff ≤ e.1)) := by
  rcases hget : dictGet st.user_windows u with _ | w0
  · simp [trim_user_window, hget]
  · by_cases hw0 : w0 = []
    · subst hw0
      simp [trim_user_window, hget]
    · have hs0 : SortedTs w0 := by
        rw [hget] at hs
        simpa using hs
      obtain ⟨htake, hdrop⟩ := bisect_lt_take_drop w0 hs0 cutoff
      simp only [trim_user_window]
      rw [hget]
      simp only [if_neg hw0, Option.getD_some]
      rw [hdrop]

/-- C5: a user with no points inside the window — including an id never
inserted at all — is a valid no-data outcome, not a missing-user error: the
store-level query (trim-as-read) returns the empty window, and the HTTP
handler reports the same NoData response (404, "No data for ...") that any
stale user gets, never an error distinguishing a missing user. -/
theorem C5_no_data_is_not_an_error (st : AppState) (u : String) (now : Int)
    (hs : SortedTs ((dictGet st.user_windows u).getD []))
    (hnone : ((dictGet st.user_windows u).getD []).filter
      (fun e => decide (now - st.window_seconds ≤ e.1)) = []) :
    (trim_user_window st u (now - st.window_seconds)).1 = [] ∧
    (get_user_median st u now).1 =
      Except.error (404, "No data for " ++ u) := by
  have h1 := trim_fst_eq_filter st u (now - st.window_seconds) hs
  rw [hnone] at h1
  refine ⟨h1, ?_⟩
  simp only [get_user_median]
  simp [h1]

/-- Witness for C5: the id "ghost" was never inserted into the demo store;
the query returns empty and the handler answers with the NoData response. -/
theorem C5_no_data_is_not_an_error_witness :
    SortedTs ((dictGet demoState.user_windows "ghost").getD []) ∧
    ((dictGet demoState.user_windows "ghost").getD []).filter
      (fun e => decide (350 - demoState.window_seconds ≤ e.1)) = [] ∧
    ((trim_user_window demoState "ghost" (350 - demoState.window_seconds)).1 = [] ∧
    (get_user_median demoState "ghost" 350).1 =
      Except.error (404, "No data for " ++ "ghost")) :=
  ⟨by decide, by decide,
    C5_no_data_is_not_an_error demoState "ghost" 350 (by decide) (by decide)⟩

theorem except_bind_ok {ε α β : Type} (a : α) (f : α → Except ε β) :
    ((Except.ok a : Except ε α) >>= f) = f a := rfl

theorem decodeEntry_pair (t : Int) (sc : ℚ) :
    decodeEntry (JValue.jarr [JValue.jnum (t : ℚ), JValue.jnum sc]) =
      Except.ok (t, sc) := by
  simp [decodeEntry, pyInt, pyFloat, except_bind_ok]

theorem decodeWindow_save (w : List (Int × ℚ)) :
    decodeWindow (JValue.jarr (w.map (fun e =>
      JValue.jarr [JValue.jnum (e.1 : ℚ), JValue.jnum e.2]))) =
      Except.ok w := by
  induction w with
  | nil => rfl
  | cons e rest ih =>
    simp only [decodeWindow, List.map_cons, List.mapM_cons] at ih ⊢
    simp [decodeEntry_pair, except_bind_ok]
    show List.cons e <$> List.mapM decodeEntry
        (List.map (fun e => JValue.jarr [JValue.jnum (e.1 : ℚ), JValue.jnum e.2])
          rest)
      = Except.ok (e :: rest)
    rw [ih]
    rfl

theorem decodeUserWindows_save (uws : List (String × List (Int × ℚ))) :
    decodeUserWindows (JValue.jobj (uws.map (fun uw =>
      (uw.1, JValue.jarr (uw.2.map (fun e =>
        JValue.jarr [JValue.jnum (e.1 : ℚ), JValue.jnum e.2])))))) =
      Except.ok uws := by
  induction uws with
  | nil => rfl
  | cons p rest ih =>
    simp only [decodeUserWindows, List.map_cons, List.mapM_cons] at ih ⊢
    simp [decodeWindow_save, except_bind_ok]
    show List.cons p <$> List.mapM (fun kv => do
        let w ← decodeWindow kv.2
        Except.ok (kv.1, w))
      (List.map (fun uw => (uw.1, JValue.jarr (uw.2.map (fun e =>
        JValue.jarr [JValue.jnum (e.1 : ℚ), JValue.jnum e.2])))) rest)
      = Except.ok (p :: rest)
    rw [ih]
    rfl

/-- C4: the persistence round trip — loading the snapshot produced by
save_to_file into any store reproduces the saved store's window_seconds,
its five counters, and its per-user windows as the same ordered lists of
(timestamp, score) pairs; queue contents and capacity are not persisted
and stay those of the store performing the load. -/
theorem C4_persistence_round_trip (st st0 : AppState) :
    load_from_file st0 (some (some (save_data st))) = Except.ok
      { st0 with
        window_seconds := st.window_seconds
        user_windows := st.user_windows
        ingest_requests_total := st.ingest_requests_total
        events_received_total := st.events_received_total
        ingest_last_ts := st.ingest_last_ts
        inference_calls := st.inference_calls
        queue_rejections := st.queue_rejections } := by
  simp only [load_from_file, save_data, load_from_data]
  simp [fieldD, dictGet, decodeUserWindows_save, pyIntField, pyCounter,
    pyRatField, except_bind_ok]

/-- C6: the code evaluated on a batch whose second event is rejected — the
queue (capacity 1, empty, nobody draining) admits the first event, the
second times out, the call reports 503.  record_ingest is skipped on this
path: the admitted event sits in the queue, yet events_received_total and
ingest_requests_total stay 0 (only queue_rejections moves), contradicting
the claim that the counters record however many events were accepted. -/
theorem C6_rejected_batch_skips_counters :
    (ingest { initialState with queue_maxsize := 1 }
        [⟨"u1", 100, [1]⟩, ⟨"u2", 101, [2]⟩] 0).1 =
      Except.error (503, "Queue full") ∧
    (ingest { initialState with queue_maxsize := 1 }
        [⟨"u1", 100, [1]⟩, ⟨"u2", 101, [2]⟩] 0).2.event_queue =
      [⟨"u1", 100, [1]⟩] ∧
    (ingest { initialState with queue_maxsize := 1 }
        [⟨"u1", 100, [1]⟩, ⟨"u2", 101, [2]⟩] 0).2.events_received_total = 0 ∧
    (ingest { initialState with queue_maxsize := 1 }
        [⟨"u1", 100, [1]⟩, ⟨"u2", 101, [2]⟩] 0).2.ingest_requests_total = 0 ∧
    (ingest { initialState with queue_maxsize := 1 }
        [⟨"u1", 100, [1]⟩, ⟨"u2", 101, [2]⟩] 0).2.queue_rejections = 1 := by
  refine ⟨?_, ?_, ?_, ?_, ?_⟩ <;> rfl

theorem submit_results_spec (events : List Event) (now : ℚ) :
    ∀ st : AppState, st.event_queue.length ≤ st.queue_maxsize →
      (submit_results st events now).1 =
        List.replicate (min events.length
          (st.queue_maxsize - st.event_queue.length)) true
        ++ List.replicate (events.length - min events.length
          (st.queue_maxsize - st.event_queue.length)) false ∧
      (submit_results st events now).2.queue_rejections =
        st.queue_rejections + (events.length - min events.length
          (st.queue_maxsize - st.event_queue.length)) := by
  induction events with
  | nil =>
    intro st h
    simp [submit_results]
  | cons e rest ih =>
    intro st h
    by_cases hfull : st.event_queue.length < st.queue_maxsize
    · have hing : ingest st [e] now =
          (Except.ok { status := "ok", accepted := 1, batch_size := 1 },
            record_ingest { st with event_queue := st.event_queue ++ [e] }
              1 now) := by
        simp [ingest, ingestLoop, hfull]
      obtain ⟨h1, h2⟩ := ih
        (record_ingest { st with event_queue := st.event_queue ++ [e] } 1 now)
        (by simp [record_ingest]; omega)
      have hX : (record_ingest { st with event_queue := st.event_queue ++ [e] }
          1 now).queue_maxsize -
          (record_ingest { st with event_queue := st.event_queue ++ [e] }
          1 now).event_queue.length =
          st.queue_maxsize - (st.event_queue.length + 1) := by
        simp [record_ingest]
      have hR : (record_ingest { st with event_queue := st.event_queue ++ [e] }
          1 now).queue_rejections = st.queue_rejections := rfl
      rw [hX] at h1 h2
      rw [hR] at h2
      constructor
      · simp only [submit_results, hing, List.length_cons]
        rw [h1]
        have hmin : min (rest.length + 1)
            (st.queue_maxsize - st.event_queue.length) =
            min rest.length
              (st.queue_maxsize - (st.event_queue.length + 1)) + 1 := by
          omega
        rw [hmin]
        have hfc : rest.length + 1 -
            (min rest.length
              (st.queue_maxsize - (st.event_queue.length + 1)) + 1) =
            rest.length - min rest.length
              (st.queue_maxsize - (st.event_queue.length + 1)) := by
          omega
        rw [hfc, List.replicate_succ]
        simp
      · simp only [submit_results, hing, List.length_cons]
        rw [h2]
        omega
    · have hing : ingest st [e] now =
          (Except.error (503, "Queue full"),
            { st with queue_rejections := st.queue_rejections + 1 }) := by
        simp [ingest, ingestLoop, hfull]
      obtain ⟨h1, h2⟩ := ih
        { st with queue_rejections := st.queue_rejections + 1 }
        (by simpa using h)
      have hX : ({ st with queue_rejections := st.queue_rejections + 1 } :
          AppState).queue_maxsize -
          ({ st with queue_rejections := st.queue_rejections + 1 } :
          AppState).event_queue.length = 0 := by
        simp only []
        omega
      rw [hX] at h1 h2
      have hrej2 : ({ st with queue_rejections := st.queue_rejections + 1 } :
          AppState).queue_rejections = st.queue_rejections + 1 := rfl
      rw [hrej2] at h2
      have hL : st.queue_maxsize - st.event_queue.length = 0 := by omega
      constructor
      · simp only [submit_results, hing, List.length_cons]
        rw [h1, hL]
        simp [List.replicate_succ]
      · simp only [submit_results, hing, List.length_cons]
        rw [h2, hL]
        omega

/-- C7: single-event submissions with no worker draining (each its own
POST /ingest call): the events up to the queue's remaining capacity are
accepted, every overflow submission is answered with the capacity error,
and queue_rejections grows by exactly the number of overflow events. -/
theorem C7_admission_bound (st : AppState) (events : List Event) (now : ℚ)
    (hcap : st.event_queue.length ≤ st.queue_maxsize) :
    (submit_results st events now).1 =
      List.replicate (min events.length
        (st.queue_maxsize - st.event_queue.length)) true
      ++ List.replicate (events.length - min events.length
        (st.queue_maxsize - st.event_queue.length)) false ∧
    (submit_results st events now).2.queue_rejections =
      st.queue_rejections + (events.length - min events.length
        (st.queue_maxsize - st.event_queue.length)) :=
  submit_results_spec events now st hcap

/-- Witness for C7: capacity 2, three submissions — two accepted, the third
rejected, one rejection counted. -/
theorem C7_admission_bound_witness :
    ({ initialState with queue_maxsize := 2 } :
        AppState).event_queue.length ≤ 2 ∧
    ((submit_results { initialState with queue_maxsize := 2 }
        [⟨"u1", 100, [1]⟩, ⟨"u2", 101, [2]⟩, ⟨"u3", 102, [3]⟩] 0).1 =
      List.replicate (min 3 (2 - 0)) true ++ List.replicate (3 - min 3 (2 - 0)) false ∧
    (submit_results { initialState with queue_maxsize := 2 }
        [⟨"u1", 100, [1]⟩, ⟨"u2", 101, [2]⟩, ⟨"u3", 102, [3]⟩] 0).2.queue_rejections =
      0 + (3 - min 3 (2 - 0))) :=
  ⟨by decide, C7_admission_bound { initialState with queue_maxsize := 2 }
    [⟨"u1", 100, [1]⟩, ⟨"u2", 101, [2]⟩, ⟨"u3", 102, [3]⟩] 0 (by decide)⟩

/-- C8: the code evaluated on a present file with invalid content — the
file "[1, 2, 3]" is valid JSON but not a snapshot record; json.load
succeeds, and the first data.get raises AttributeError, which escapes
load_from_file (its try/except wraps only json.load), instead of leaving
the default state without raising.  Content that already fails JSON
parsing, by contrast, is caught and leaves the store untouched. -/
theorem C8_invalid_content_raises :
    load_from_file initialState (some (some
        (JValue.jarr [JValue.jnum 1, JValue.jnum 2, JValue.jnum 3]))) =
      Except.error "AttributeError: no attribute get" ∧
    load_from_file initialState (some none) = Except.ok initialState :=
  ⟨rfl, rfl⟩

/-- C9: the code evaluated on an event whose scoring fails — the worker
loop body has no try/except, so the scorer's exception propagates out of
inference_worker_step (and hence out of the worker loop, killing the
worker task) instead of being caught, logged and skipped. -/
theorem C9_scorer_failure_escapes_worker :
    inference_worker_step initialState
      { user_id := "u1", timestamp := 100, features := [1] }
      (fun _ => Except.error "ScoringFailure") =
      Except.error "ScoringFailure" := rfl

end EightSleep
